import Mathlib

/-!
Verification of the instruction-contract macros of the revm interpreter
(`crates/interpreter/src/instructions/macros.rs`).

The macros operate on an interpreter value with fields `stack`,
`shared_memory`, `gas`, `is_static` and `instruction_result`, and on a
compile-time protocol version `SPEC`.  Each macro either continues the
handler or sets `instruction_result` and early-returns; we embed each macro
as a function `Interp → Interp × Bool` (or returning the bound values in an
`Option`), where the `Bool` is `true` when the handler continues and `false`
when the macro early-returned.

Machine integers are embedded as `Nat` with explicit bounds: `usize`/`u64`
are 64 bits wide on the target, 256-bit words are `Nat` values below
`2 ^ 256`, and limbs of a word are its base `2 ^ 64` digits.
-/

set_option autoImplicit false
set_option linter.unusedVariables false

namespace Revm

/-- Maximum value of `usize` and `u64` on the 64-bit target. -/
def USIZE_MAX : Nat := 2 ^ 64 - 1

/-- Capacity of the operand stack. -/
def STACK_LIMIT : Nat := 1024

/-- The outcome slot written by every failing macro.  `Continue` is the
initial "no error" value. -/
inductive InstructionResult where
  | Continue
  | StackUnderflow
  | StackOverflow
  | OutOfGas
  | MemoryLimitOOG
  | NotActivated
  | StateChangeDuringStaticCall
  | InvalidOperandOOG
  deriving DecidableEq, Repr

/-- Modelled from the spec: the gas meter (`Gas` in `crates/interpreter`,
not under `src/`) holds a remaining budget, a high-water mark of the total
memory gas already recorded, and a refund accumulator. -/
structure Gas where
  remaining : Nat
  memory : Nat
  refunded : Int
  deriving DecidableEq, Repr

/-- Modelled from the spec: `Gas.record_cost` atomically subtracts the cost
from the remaining budget if sufficient and reports whether it succeeded;
on failure the budget is left unchanged. -/
def Gas.record_cost (g : Gas) (cost : Nat) : Gas × Bool :=
  if cost ≤ g.remaining then ({ g with remaining := g.remaining - cost }, true)
  else (g, false)

/-- Modelled from the spec: `Gas.record_refund` adds to the refund
accumulator unconditionally. -/
def Gas.record_refund (g : Gas) (refund : Int) : Gas :=
  { g with refunded := g.refunded + refund }

/-- Modelled from the spec: `Gas.record_memory` receives the total memory
gas for the new word count and charges only the incremental cost above the
high-water mark already recorded; the charge is atomic, so on failure the
meter is unchanged. -/
def Gas.record_memory (g : Gas) (gasMemory : Nat) : Gas × Bool :=
  if g.memory < gasMemory then
    if gasMemory - g.memory ≤ g.remaining then
      ({ g with remaining := g.remaining - (gasMemory - g.memory), memory := gasMemory }, true)
    else (g, false)
  else (g, true)

/-- Modelled from the spec: rounding of a requested memory size up to the
next multiple of 32 (`next_multiple_of_32` in `crates/interpreter`, not
under `src/`), saturating at the `usize` maximum. -/
def next_multiple_of_32 (x : Nat) : Nat :=
  min ((x + 31) / 32 * 32) USIZE_MAX

/-- Modelled from the spec: the linear memory (`SharedMemory`, not under
`src/`) is a word-aligned byte buffer; only its current length and the
optional configured maximum length matter to the contract.  `limit = none`
embeds a build without the `memory_limit` feature. -/
structure SharedMemory where
  len : Nat
  limit : Option Nat
  deriving DecidableEq, Repr

/-- Modelled from the spec: `SharedMemory.limit_reached` reports whether
growing for the requested size would exceed the configured maximum; per the
spec the growth fails when the word-rounded required size exceeds the
configured maximum. -/
def SharedMemory.limit_reached (m : SharedMemory) (newSize : Nat) : Bool :=
  match m.limit with
  | none => false
  | some l => decide (l < next_multiple_of_32 newSize)

/-- Modelled from the spec: `SharedMemory.resize` grows the buffer to the
given length (zero-filling, which the length abstraction does not track). -/
def SharedMemory.resize (m : SharedMemory) (newSize : Nat) : SharedMemory :=
  { m with len := newSize }

/-- The operand stack: a sequence of 256-bit words with the most recently
pushed word at the head of the list. -/
structure Stack where
  data : List Nat
  deriving DecidableEq, Repr

/-- Number of words currently on the stack. -/
def Stack.len (s : Stack) : Nat := s.data.length

/-- Modelled from the spec: `Stack.push` (not under `src/`) succeeds unless
the length equals the capacity, in which case it fails with `StackOverflow`
and performs no mutation. -/
def Stack.push (s : Stack) (w : Nat) : Except InstructionResult Stack :=
  if s.data.length = STACK_LIMIT then .error .StackOverflow
  else .ok ⟨w :: s.data⟩

/-- Modelled from the spec: the pre-validated unchecked pop removes and
returns the most recently pushed word; it is only invoked after a length
check. -/
def Stack.pop_unsafe (s : Stack) : Nat × Stack :=
  (s.data.headD 0, ⟨s.data.tail⟩)

/-- The interpreter state seen by the macros. `spec_active` embeds the
compile-time `SPEC` parameter: the active protocol version, an ordered
enumeration embedded as `Nat`. -/
structure Interp where
  stack : Stack
  shared_memory : SharedMemory
  gas : Gas
  spec_active : Nat
  is_static : Bool
  instruction_result : InstructionResult
  deriving DecidableEq, Repr

/-- Modelled from the spec: `Spec::enabled(min)` asks whether the capability
introduced at version `min` is present at or before the active version. -/
def spec_enabled (active min : Nat) : Bool :=
  decide (min ≤ active)

/-- The `check_staticcall!` macro: fails the instruction with
`StateChangeDuringStaticCall` if the current call is static. -/
def check_staticcall (i : Interp) : Interp × Bool :=
  if i.is_static then
    ({ i with instruction_result := .StateChangeDuringStaticCall }, false)
  else (i, true)

/-- The `check!` macro: fails the instruction with `NotActivated` if the
capability introduced at version `min` is not enabled in `SPEC`. -/
def check (min : Nat) (i : Interp) : Interp × Bool :=
  if !spec_enabled i.spec_active min then
    ({ i with instruction_result := .NotActivated }, false)
  else (i, true)

/-- A handler that begins with `check_staticcall!` and then runs its
remaining body `rest`.  The early return of the macro means `rest` does not
run when the check fails. -/
def run_with_staticcall_guard (rest : Interp → Interp) (i : Interp) : Interp :=
  let (i2, cont) := check_staticcall i
  if cont then rest i2 else i2

/-- A handler that begins with `check!` for version `min` and then runs its
remaining body `rest`. -/
def run_with_check_guard (min : Nat) (rest : Interp → Interp) (i : Interp) : Interp :=
  let (i2, cont) := check min i
  if cont then rest i2 else i2

/-- The `gas!` macro: records a gas cost and fails the instruction with
`OutOfGas` if it would exceed the available gas. -/
def gas (cost : Nat) (i : Interp) : Interp × Bool :=
  let r := i.gas.record_cost cost
  if r.2 then ({ i with gas := r.1 }, true)
  else ({ i with gas := r.1, instruction_result := .OutOfGas }, false)

/-- The `refund!` macro: records a gas refund. -/
def refund (amount : Int) (i : Interp) : Interp :=
  { i with gas := i.gas.record_refund amount }

/-- The `gas_or_fail!` macro: same as `gas!`, but with the cost as an
option; an absent cost fails the instruction with `OutOfGas` directly. -/
def gas_or_fail (cost : Option Nat) (i : Interp) : Interp × Bool :=
  match cost with
  | some gas_used => gas gas_used i
  | none => ({ i with instruction_result := .OutOfGas }, false)

/-- The `resize_memory!` macro: resizes the interpreter memory if
necessary, failing the instruction with `MemoryLimitOOG` if the memory or
gas limit is exceeded.  The memory-cost function of the word count is the
configured `memory_gas` (its formula is outside this contract), passed here
as the parameter `cost`. -/
def resize_memory (offset len : Nat) (cost : Nat → Nat) (i : Interp) : Interp × Bool :=
  let size := min (offset + len) USIZE_MAX
  if i.shared_memory.len < size then
    let rounded_size := next_multiple_of_32 size
    if i.shared_memory.limit_reached size then
      ({ i with instruction_result := .MemoryLimitOOG }, false)
    else
      let words_num := rounded_size / 32
      let r := i.gas.record_memory (cost words_num)
      if r.2 then
        ({ i with gas := r.1, shared_memory := i.shared_memory.resize rounded_size }, true)
      else
        ({ i with gas := r.1, instruction_result := .MemoryLimitOOG }, false)
  else (i, true)

/-- The `pop_ret!` family (arities 1 to 4): fails the instruction with
`StackUnderflow` when the stack holds fewer than `k` words, otherwise
removes exactly `k` words and binds them most-recently-pushed first. -/
def pop_ret (k : Nat) (i : Interp) : Interp × Option (List Nat) :=
  if i.stack.len < k then
    ({ i with instruction_result := .StackUnderflow }, none)
  else
    ({ i with stack := ⟨i.stack.data.drop k⟩ }, some (i.stack.data.take k))

/-- The `pop_address!` family (arities 1 and 2): like `pop_ret!` but each
popped word is viewed as an address, its low 160 bits. -/
def pop_address (k : Nat) (i : Interp) : Interp × Option (List Nat) :=
  if i.stack.len < k then
    ({ i with instruction_result := .StackUnderflow }, none)
  else
    ({ i with stack := ⟨i.stack.data.drop k⟩ },
      some ((i.stack.data.take k).map (fun w => w % 2 ^ 160)))

/-- The `push!` macro with several values: each value is pushed in
left-to-right order; the first failing push sets the error and
early-returns, leaving the earlier pushes in place.  `push_b256!` expands
the same way with the word built from a `B256` value. -/
def push (ws : List Nat) (i : Interp) : Interp :=
  match ws with
  | [] => i
  | w :: rest =>
    match i.stack.push w with
    | .ok s => push rest { i with stack := s }
    | .error e => { i with instruction_result := e }

/-- Limb `j` of a 256-bit word: its base `2 ^ 64` digit `j` (what
`U256::as_limbs` exposes). -/
def limb (v j : Nat) : Nat :=
  v / 2 ^ (64 * j) % 2 ^ 64

/-- The `as_u64_saturated!` macro: converts a 256-bit word to a `u64`,
saturating to `u64::MAX` if any higher limb is nonzero. -/
def as_u64_saturated (v : Nat) : Nat :=
  if limb v 1 = 0 ∧ limb v 2 = 0 ∧ limb v 3 = 0 then limb v 0
  else USIZE_MAX

/-- The `as_usize_saturated!` macro: `usize::try_from` applied to
`as_u64_saturated!`, with `usize::MAX` as fallback; on the 64-bit target
the conversion always succeeds. -/
def as_usize_saturated (v : Nat) : Nat :=
  as_u64_saturated v

/-- The `as_usize_or_fail_ret!` macro (general form): fails the instruction
with `reason` when any higher limb is nonzero or the low limb does not fit
`usize` (always fits on the 64-bit target), otherwise evaluates to the low
limb. -/
def as_usize_or_fail_ret (i : Interp) (v : Nat) (reason : InstructionResult) :
    Interp × Option Nat :=
  if limb v 1 ≠ 0 ∨ limb v 2 ≠ 0 ∨ limb v 3 ≠ 0 then
    ({ i with instruction_result := reason }, none)
  else
    (i, some (limb v 0))

/-- The `as_usize_or_fail!` short form: the failure reason defaults to
`InvalidOperandOOG`. -/
def as_usize_or_fail (i : Interp) (v : Nat) : Interp × Option Nat :=
  as_usize_or_fail_ret i v .InvalidOperandOOG

/-- A concrete interpreter state used to instantiate theorems with
hypotheses. -/
def i0 : Interp :=
  { stack := ⟨[]⟩
    shared_memory := { len := 0, limit := none }
    gas := { remaining := 100, memory := 0, refunded := 0 }
    spec_active := 5
    is_static := false
    instruction_result := .Continue }

/- ## Theorems -/

/-- Low limb of a word is its value modulo the native width. -/
theorem limb_zero_eq (v : Nat) : limb v 0 = v % 2 ^ 64 := by
  unfold limb
  norm_num

/-- For a 256-bit word, the three higher limbs vanish exactly when the value
fits in 64 bits. -/
theorem high_limbs_zero_iff {v : Nat} (h : v < 2 ^ 256) :
    (limb v 1 = 0 ∧ limb v 2 = 0 ∧ limb v 3 = 0) ↔ v < 2 ^ 64 := by
  constructor
  · rintro ⟨h1, h2, h3⟩
    have d3 : v / 2 ^ 192 < 2 ^ 64 := by
      rw [Nat.div_lt_iff_lt_mul (by norm_num : (0 : ℕ) < 2 ^ 192)]
      calc v < 2 ^ 256 := h
        _ = 2 ^ 64 * 2 ^ 192 := by norm_num
    have e3 : v / 2 ^ 192 = 0 := by
      have h3e : v / 2 ^ 192 % 2 ^ 64 = 0 := h3
      rwa [Nat.mod_eq_of_lt d3] at h3e
    have l192 : v < 2 ^ 192 :=
      (Nat.div_eq_zero_iff (by norm_num : (0 : ℕ) < 2 ^ 192)).mp e3
    have d2 : v / 2 ^ 128 < 2 ^ 64 := by
      rw [Nat.div_lt_iff_lt_mul (by norm_num : (0 : ℕ) < 2 ^ 128)]
      calc v < 2 ^ 192 := l192
        _ = 2 ^ 64 * 2 ^ 128 := by norm_num
    have e2 : v / 2 ^ 128 = 0 := by
      have h2e : v / 2 ^ 128 % 2 ^ 64 = 0 := h2
      rwa [Nat.mod_eq_of_lt d2] at h2e
    have l128 : v < 2 ^ 128 :=
      (Nat.div_eq_zero_iff (by norm_num : (0 : ℕ) < 2 ^ 128)).mp e2
    have d1 : v / 2 ^ 64 < 2 ^ 64 := by
      rw [Nat.div_lt_iff_lt_mul (by norm_num : (0 : ℕ) < 2 ^ 64)]
      calc v < 2 ^ 128 := l128
        _ = 2 ^ 64 * 2 ^ 64 := by norm_num
    have e1 : v / 2 ^ 64 = 0 := by
      have h1e : v / 2 ^ 64 % 2 ^ 64 = 0 := h1
      rwa [Nat.mod_eq_of_lt d1] at h1e
    exact (Nat.div_eq_zero_iff (by norm_num : (0 : ℕ) < 2 ^ 64)).mp e1
  · intro hv
    refine ⟨?_, ?_, ?_⟩ <;>
      · show v / _ % 2 ^ 64 = 0
        rw [Nat.div_eq_of_lt (lt_of_lt_of_le hv (by norm_num))]
        rfl

/-- Claim C4: charging cost `c` against remaining budget `R` via `gas!`
fails with `OutOfGas` and leaves the budget exactly `R` when `c > R`, and
succeeds leaving exactly `R - c` when `c ≤ R`; the charge is atomic. -/
theorem gas_record_cost_atomic (i : Interp) (c : Nat) :
    (c ≤ i.gas.remaining →
      gas c i =
        ({ i with gas := { i.gas with remaining := i.gas.remaining - c } }, true)) ∧
    (i.gas.remaining < c →
      gas c i = ({ i with instruction_result := .OutOfGas }, false)) := by
  constructor
  · intro h
    simp [gas, Gas.record_cost, if_pos h]
  · intro h
    simp [gas, Gas.record_cost, Nat.not_le.mpr h]

/-- Witness for C4: a concrete charge of 30 against a budget of 100. -/
theorem gas_record_cost_atomic_witness :
    gas 30 i0 =
      ({ i0 with gas := { i0.gas with remaining := i0.gas.remaining - 30 } }, true) :=
  (gas_record_cost_atomic i0 30).1 (by decide)

/-- Claim C9: `gas_or_fail!` with an absent cost fails with `OutOfGas`
without touching the meter; with a present cost it behaves exactly like the
`gas!` charge of that cost. -/
theorem gas_or_fail_absent_or_charge (i : Interp) (c : Option Nat) :
    (c = none → gas_or_fail c i = ({ i with instruction_result := .OutOfGas }, false)) ∧
    (∀ x, c = some x → gas_or_fail c i = gas x i) := by
  constructor
  · rintro rfl
    rfl
  · rintro x rfl
    rfl

/-- Witness for C9: the absent-cost case on a concrete state. -/
theorem gas_or_fail_absent_witness :
    gas_or_fail none i0 = ({ i0 with instruction_result := .OutOfGas }, false) :=
  (gas_or_fail_absent_or_charge i0 none).1 rfl

/-- Claim C6: `as_u64_saturated!` returns the exact low-limb value when all
higher limbs are zero (the word fits the native width) and the native
maximum when any higher limb is nonzero; `as_usize_saturated!` agrees with
it on the 64-bit target. -/
theorem as_u64_saturated_exact_or_max (v : Nat) (h : v < 2 ^ 256) :
    (v < 2 ^ 64 → as_u64_saturated v = v) ∧
    (2 ^ 64 ≤ v → as_u64_saturated v = USIZE_MAX) ∧
    as_usize_saturated v = as_u64_saturated v := by
  refine ⟨fun hv => ?_, fun hv => ?_, rfl⟩
  · have h123 := (high_limbs_zero_iff h).mpr hv
    rw [as_u64_saturated, if_pos h123, limb_zero_eq, Nat.mod_eq_of_lt hv]
  · have h123 : ¬(limb v 1 = 0 ∧ limb v 2 = 0 ∧ limb v 3 = 0) := fun hc =>
      absurd ((high_limbs_zero_iff h).mp hc) (Nat.not_lt.mpr hv)
    rw [as_u64_saturated, if_neg h123]

/-- Witness for C6: a wide value with a nonzero higher limb saturates. -/
theorem as_u64_saturated_witness :
    (2 ^ 70 < 2 ^ 64 → as_u64_saturated (2 ^ 70) = 2 ^ 70) ∧
    (2 ^ 64 ≤ 2 ^ 70 → as_u64_saturated (2 ^ 70) = USIZE_MAX) ∧
    as_usize_saturated (2 ^ 70) = as_u64_saturated (2 ^ 70) :=
  as_u64_saturated_exact_or_max (2 ^ 70) (by norm_num)

/-- Claim C7: `as_usize_or_fail!` fails the instruction with
`InvalidOperandOOG` whenever the word does not fit the native index width,
and returns the exact value whenever it does. -/
theorem as_usize_or_fail_exact_or_error (i : Interp) (v : Nat) (h : v < 2 ^ 256) :
    (v < 2 ^ 64 → as_usize_or_fail i v = (i, some v)) ∧
    (2 ^ 64 ≤ v →
      as_usize_or_fail i v = ({ i with instruction_result := .InvalidOperandOOG }, none)) := by
  constructor
  · intro hv
    have h123 := (high_limbs_zero_iff h).mpr hv
    have hcond : ¬(limb v 1 ≠ 0 ∨ limb v 2 ≠ 0 ∨ limb v 3 ≠ 0) := by
      simp [h123.1, h123.2.1, h123.2.2]
    rw [as_usize_or_fail, as_usize_or_fail_ret, if_neg hcond, limb_zero_eq,
      Nat.mod_eq_of_lt hv]
  · intro hv
    have h123 : ¬(limb v 1 = 0 ∧ limb v 2 = 0 ∧ limb v 3 = 0) := fun hc =>
      absurd ((high_limbs_zero_iff h).mp hc) (Nat.not_lt.mpr hv)
    have hcond : limb v 1 ≠ 0 ∨ limb v 2 ≠ 0 ∨ limb v 3 ≠ 0 := by
      tauto
    rw [as_usize_or_fail, as_usize_or_fail_ret, if_pos hcond]

/-- Witness for C7: an oversized index operand fails on a concrete state. -/
theorem as_usize_or_fail_witness :
    as_usize_or_fail i0 (2 ^ 70) =
      ({ i0 with instruction_result := .InvalidOperandOOG }, none) :=
  (as_usize_or_fail_exact_or_error i0 (2 ^ 70) (by norm_num)).2 (by norm_num)

/-- Claim C5: a handler whose first step is the static-call guard, invoked
on a read-only frame, sets `StateChangeDuringStaticCall` and runs nothing
else, so stack length, gas remaining and memory length are unchanged; a
handler whose first step is the feature gate for a capability not enabled
at the active version does the same with `NotActivated`. -/
theorem guards_reject_before_mutation (i : Interp) (min : Nat)
    (rest rest2 : Interp → Interp) :
    (i.is_static = true →
      run_with_staticcall_guard rest i =
        { i with instruction_result := .StateChangeDuringStaticCall } ∧
      (run_with_staticcall_guard rest i).stack.len = i.stack.len ∧
      (run_with_staticcall_guard rest i).gas.remaining = i.gas.remaining ∧
      (run_with_staticcall_guard rest i).shared_memory.len = i.shared_memory.len) ∧
    (i.spec_active < min →
      run_with_check_guard min rest2 i = { i with instruction_result := .NotActivated } ∧
      (run_with_check_guard min rest2 i).stack.len = i.stack.len ∧
      (run_with_check_guard min rest2 i).gas.remaining = i.gas.remaining ∧
      (run_with_check_guard min rest2 i).shared_memory.len = i.shared_memory.len) := by
  constructor
  · intro h
    have e : run_with_staticcall_guard rest i =
        { i with instruction_result := .StateChangeDuringStaticCall } := by
      simp [run_with_staticcall_guard, check_staticcall, h]
    exact ⟨e, by rw [e], by rw [e], by rw [e]⟩
  · intro h
    have hn : ¬ min ≤ i.spec_active := by omega
    have e : run_with_check_guard min rest2 i =
        { i with instruction_result := .NotActivated } := by
      simp [run_with_check_guard, check, spec_enabled, hn]
    exact ⟨e, by rw [e], by rw [e], by rw [e]⟩

/-- Witness for C5: a static frame and a gated-off capability on concrete
states, with a mutating handler body. -/
theorem guards_reject_witness :
    run_with_staticcall_guard (push [5]) { i0 with is_static := true } =
      { { i0 with is_static := true } with
          instruction_result := .StateChangeDuringStaticCall } ∧
    run_with_check_guard 6 (push [5]) i0 =
      { i0 with instruction_result := .NotActivated } :=
  ⟨((guards_reject_before_mutation { i0 with is_static := true } 6
      (push [5]) (push [5])).1 rfl).1,
   ((guards_reject_before_mutation i0 6 (push [5]) (push [5])).2 (by decide)).1⟩

/-- Claim C3: a checked pop of `k` words (`pop_ret!` and `pop_address!`,
arities 1 to 4) fails with `StackUnderflow` leaving the stack unmutated
when the length is below `k`, and otherwise removes exactly the top `k`
words, binding them most-recently-pushed first, leaving length `L - k`. -/
theorem pop_ret_underflow_or_lifo (i : Interp) (k : Nat) (hk : 1 ≤ k ∧ k ≤ 4) :
    (i.stack.len < k →
      pop_ret k i = ({ i with instruction_result := .StackUnderflow }, none) ∧
      pop_address k i = ({ i with instruction_result := .StackUnderflow }, none)) ∧
    (k ≤ i.stack.len →
      pop_ret k i =
        ({ i with stack := ⟨i.stack.data.drop k⟩ }, some (i.stack.data.take k)) ∧
      (i.stack.data.take k).length = k ∧
      i.stack.data.take k ++ i.stack.data.drop k = i.stack.data ∧
      (pop_ret k i).1.stack.len = i.stack.len - k ∧
      pop_address k i =
        ({ i with stack := ⟨i.stack.data.drop k⟩ },
          some ((i.stack.data.take k).map (fun w => w % 2 ^ 160)))) := by
  constructor
  · intro h
    exact ⟨by rw [pop_ret, if_pos h], by rw [pop_address, if_pos h]⟩
  · intro h
    have hn : ¬ i.stack.len < k := Nat.not_lt.mpr h
    refine ⟨by rw [pop_ret, if_neg hn], ?_, List.take_append_drop k i.stack.data, ?_,
      by rw [pop_address, if_neg hn]⟩
    · rw [List.length_take]
      exact Nat.min_eq_left h
    · rw [pop_ret, if_neg hn]
      simp [Stack.len]

/-- Witness for C3: popping 2 of 3 words, and an underflowing pop of 3 from
an empty stack. -/
theorem pop_ret_witness :
    pop_ret 2 { i0 with stack := ⟨[10, 20, 30]⟩ } =
      ({ i0 with stack := ⟨[30]⟩ }, some [10, 20]) ∧
    pop_ret 3 i0 = ({ i0 with instruction_result := .StackUnderflow }, none) :=
  ⟨((pop_ret_underflow_or_lifo { i0 with stack := ⟨[10, 20, 30]⟩ } 2
      (by decide)).2 (by decide)).1,
   ((pop_ret_underflow_or_lifo i0 3 (by decide)).1 (by decide)).1⟩

/-- Claim C10: a multi-value `push!` attempts the pushes left to right; the
first push that hits the capacity sets `StackOverflow` and stops the
instruction, and the successfully pushed prefix stays on the stack. -/
theorem push_prefix_retained_on_overflow (i : Interp) (ws : List Nat)
    (hle : i.stack.len ≤ STACK_LIMIT)
    (hov : STACK_LIMIT < i.stack.len + ws.length) :
    push ws i =
      { i with
          stack := ⟨(ws.take (STACK_LIMIT - i.stack.len)).reverse ++ i.stack.data⟩,
          instruction_result := .StackOverflow } ∧
    (push ws i).stack.len = STACK_LIMIT := by
  have main : ∀ (l : List Nat) (j : Interp), j.stack.len ≤ STACK_LIMIT →
      STACK_LIMIT < j.stack.len + l.length →
      push l j =
        { j with
            stack := ⟨(l.take (STACK_LIMIT - j.stack.len)).reverse ++ j.stack.data⟩,
            instruction_result := .StackOverflow } := by
    intro l
    induction l with
    | nil =>
      intro j h1 h2
      exact absurd h2 (by simp only [List.length_nil]; omega)
    | cons w rest ih =>
      intro j h1 h2
      by_cases hc : j.stack.data.length = STACK_LIMIT
      · have hj0 : STACK_LIMIT - j.stack.len = 0 := by
          simp [Stack.len, hc]
        rw [hj0]
        simp [push, Stack.push, hc]
      · have hlt : j.stack.data.length < STACK_LIMIT := by
          have : j.stack.data.length ≤ STACK_LIMIT := h1
          omega
        have step : push (w :: rest) j = push rest { j with stack := ⟨w :: j.stack.data⟩ } := by
          simp [push, Stack.push, hc]
        rw [step]
        rw [ih { j with stack := ⟨w :: j.stack.data⟩ }
          (by simp [Stack.len]; omega)
          (by simp [Stack.len] at h2 ⊢; omega)]
        have hsplit : ∃ m, STACK_LIMIT - j.stack.len = m + 1 ∧
            STACK_LIMIT - (j.stack.data.length + 1) = m := by
          refine ⟨STACK_LIMIT - j.stack.len - 1, ?_, ?_⟩ <;> simp [Stack.len] <;> omega
        obtain ⟨m, hm1, hm2⟩ := hsplit
        rw [hm1]
        have : ({ j with stack := ⟨w :: j.stack.data⟩ } : Interp).stack.data.length =
            j.stack.data.length + 1 := rfl
        simp only [Stack.len, this, hm2, List.take_succ_cons, List.reverse_cons,
          List.append_assoc, List.singleton_append]
  have e := main ws i hle hov
  refine ⟨e, ?_⟩
  have hws : STACK_LIMIT - i.stack.data.length ≤ ws.length := by
    simp only [Stack.len] at hov
    omega
  rw [e]
  simp only [Stack.len, List.length_append, List.length_reverse, List.length_take,
    Nat.min_eq_left hws]
  simp only [Stack.len] at hle
  omega

set_option maxRecDepth 8000 in
/-- Witness for C10: a stack one below capacity; pushing two words keeps the
first and overflows on the second. -/
theorem push_overflow_witness :
    push [1, 2] { i0 with stack := ⟨List.replicate 1023 7⟩ } =
      { i0 with
          stack := ⟨1 :: List.replicate 1023 7⟩,
          instruction_result := .StackOverflow } ∧
    (push [1, 2] { i0 with stack := ⟨List.replicate 1023 7⟩ }).stack.len = STACK_LIMIT :=
  push_prefix_retained_on_overflow { i0 with stack := ⟨List.replicate 1023 7⟩ } [1, 2]
    (by simp [Stack.len, STACK_LIMIT]) (by simp [Stack.len, STACK_LIMIT])

/-- A failing memory-gas charge leaves the meter unchanged. -/
theorem record_memory_of_fail {g : Gas} {t : Nat}
    (h : (g.record_memory t).2 = false) : (g.record_memory t).1 = g := by
  unfold Gas.record_memory at h ⊢
  split_ifs at h ⊢
  all_goals simp_all

/-- Any size at most the `usize` maximum is at most its word-rounding. -/
theorem le_next_multiple_of_32 {x : Nat} (hx : x ≤ USIZE_MAX) :
    x ≤ next_multiple_of_32 x := by
  unfold next_multiple_of_32 USIZE_MAX at *
  omega

/-- Without saturation, the word-rounding is the exact rounded division. -/
theorem next_multiple_of_32_eq {x : Nat} (hx : x + 31 ≤ USIZE_MAX) :
    next_multiple_of_32 x = (x + 31) / 32 * 32 := by
  unfold next_multiple_of_32 USIZE_MAX at *
  omega

/-- `resize_memory!` is a no-op when the requested size is within the
current length. -/
theorem resize_memory_noop {i : Interp} {offset len : Nat} {cost : Nat → Nat}
    (h : ¬ i.shared_memory.len < min (offset + len) USIZE_MAX) :
    resize_memory offset len cost i = (i, true) := by
  simp [resize_memory, h]

/-- `resize_memory!` fails without mutation when the configured maximum is
exceeded. -/
theorem resize_memory_limit_fail {i : Interp} {offset len : Nat} {cost : Nat → Nat}
    (h1 : i.shared_memory.len < min (offset + len) USIZE_MAX)
    (h2 : i.shared_memory.limit_reached (min (offset + len) USIZE_MAX) = true) :
    resize_memory offset len cost i =
      ({ i with instruction_result := .MemoryLimitOOG }, false) := by
  simp [resize_memory, h1, h2]

/-- `resize_memory!` fails without mutation when the incremental gas charge
fails. -/
theorem resize_memory_gas_fail {i : Interp} {offset len : Nat} {cost : Nat → Nat}
    (h1 : i.shared_memory.len < min (offset + len) USIZE_MAX)
    (h2 : i.shared_memory.limit_reached (min (offset + len) USIZE_MAX) = false)
    (h3 : (i.gas.record_memory
      (cost (next_multiple_of_32 (min (offset + len) USIZE_MAX) / 32))).2 = false) :
    resize_memory offset len cost i =
      ({ i with instruction_result := .MemoryLimitOOG }, false) := by
  have hg := record_memory_of_fail h3
  simp [resize_memory, h1, h2, h3, hg]

/-- `resize_memory!` grows to the word-rounded size after a successful
charge. -/
theorem resize_memory_success {i : Interp} {offset len : Nat} {cost : Nat → Nat}
    (h1 : i.shared_memory.len < min (offset + len) USIZE_MAX)
    (h2 : i.shared_memory.limit_reached (min (offset + len) USIZE_MAX) = false)
    (h3 : (i.gas.record_memory
      (cost (next_multiple_of_32 (min (offset + len) USIZE_MAX) / 32))).2 = true) :
    resize_memory offset len cost i =
      ({ i with
          gas := (i.gas.record_memory
            (cost (next_multiple_of_32 (min (offset + len) USIZE_MAX) / 32))).1,
          shared_memory :=
            i.shared_memory.resize (next_multiple_of_32 (min (offset + len) USIZE_MAX)) },
        true) := by
  simp [resize_memory, h1, h2, h3]

/-- Claim C8: `resize_memory!` is idempotent; a second call with the same
offset and length leaves the whole state (gas included) exactly as after
the first call. -/
theorem resize_memory_idempotent (i : Interp) (offset len : Nat) (cost : Nat → Nat) :
    (resize_memory offset len cost ((resize_memory offset len cost i).1)).1 =
      (resize_memory offset len cost i).1 := by
  by_cases hgrow : i.shared_memory.len < min (offset + len) USIZE_MAX
  · by_cases hlim : i.shared_memory.limit_reached (min (offset + len) USIZE_MAX) = true
    · rw [resize_memory_limit_fail hgrow hlim]
      rw [resize_memory_limit_fail (i := { i with instruction_result := .MemoryLimitOOG })
        hgrow hlim]
    · have hlimf : i.shared_memory.limit_reached (min (offset + len) USIZE_MAX) = false :=
        Bool.eq_false_iff.mpr hlim
      by_cases hok : (i.gas.record_memory
          (cost (next_multiple_of_32 (min (offset + len) USIZE_MAX) / 32))).2 = true
      · rw [resize_memory_success hgrow hlimf hok]
        have hnoop : ¬ ({ i with
            gas := (i.gas.record_memory
              (cost (next_multiple_of_32 (min (offset + len) USIZE_MAX) / 32))).1,
            shared_memory :=
              i.shared_memory.resize (next_multiple_of_32 (min (offset + len) USIZE_MAX))
          } : Interp).shared_memory.len < min (offset + len) USIZE_MAX := by
          have hle2 : min (offset + len) USIZE_MAX ≤
              next_multiple_of_32 (min (offset + len) USIZE_MAX) :=
            le_next_multiple_of_32 (Nat.min_le_right _ _)
          simpa [SharedMemory.resize] using Nat.not_lt.mpr hle2
        rw [resize_memory_noop hnoop]
      · have hokf : (i.gas.record_memory
            (cost (next_multiple_of_32 (min (offset + len) USIZE_MAX) / 32))).2 = false :=
          Bool.eq_false_iff.mpr hok
        rw [resize_memory_gas_fail hgrow hlimf hokf]
        rw [resize_memory_gas_fail (i := { i with instruction_result := .MemoryLimitOOG })
          hgrow hlimf hokf]
  · rw [resize_memory_noop hgrow]
    rw [resize_memory_noop (i := i) hgrow]

/-- Claim C2: with a maximum configured and growth required, `resize_memory!`
fails with `MemoryLimitOOG` and performs no mutation exactly when the
word-rounded required size exceeds the maximum; a failed incremental gas
charge is reported with the same `MemoryLimitOOG` kind and also performs no
mutation. -/
theorem resize_memory_limit_cases (i : Interp) (offset len : Nat) (cost : Nat → Nat)
    (l : Nat) (hlim : i.shared_memory.limit = some l)
    (hgrow : i.shared_memory.len < min (offset + len) USIZE_MAX) :
    (l < next_multiple_of_32 (min (offset + len) USIZE_MAX) →
      resize_memory offset len cost i =
        ({ i with instruction_result := .MemoryLimitOOG }, false)) ∧
    (next_multiple_of_32 (min (offset + len) USIZE_MAX) ≤ l →
      ((i.gas.record_memory
          (cost (next_multiple_of_32 (min (offset + len) USIZE_MAX) / 32))).2 = false →
        resize_memory offset len cost i =
          ({ i with instruction_result := .MemoryLimitOOG }, false)) ∧
      ((i.gas.record_memory
          (cost (next_multiple_of_32 (min (offset + len) USIZE_MAX) / 32))).2 = true →
        (resize_memory offset len cost i).2 = true ∧
        (resize_memory offset len cost i).1.instruction_result =
          i.instruction_result)) := by
  constructor
  · intro hcap
    have ht : i.shared_memory.limit_reached (min (offset + len) USIZE_MAX) = true := by
      unfold SharedMemory.limit_reached
      rw [hlim]
      simpa using hcap
    exact resize_memory_limit_fail hgrow ht
  · intro hcap
    have hf : i.shared_memory.limit_reached (min (offset + len) USIZE_MAX) = false := by
      unfold SharedMemory.limit_reached
      rw [hlim]
      simpa using Nat.not_lt.mpr hcap
    constructor
    · intro hok
      exact resize_memory_gas_fail hgrow hf hok
    · intro hok
      rw [resize_memory_success hgrow hf hok]
      exact ⟨rfl, rfl⟩

/-- Witness for C2: limit 40 with a request rounding to 64 fails without
mutation on a concrete state. -/
theorem resize_memory_limit_witness :
    resize_memory 0 33 (fun w => w) { i0 with shared_memory := ⟨0, some 40⟩ } =
      ({ { i0 with shared_memory := ⟨0, some 40⟩ } with
          instruction_result := .MemoryLimitOOG }, false) :=
  (resize_memory_limit_cases { i0 with shared_memory := ⟨0, some 40⟩ } 0 33
    (fun w => w) 40 rfl (by decide)).1 (by decide)

/-- Claim C1: with current length `M` a multiple of 32 and requested sum
`S = offset + len`, `resize_memory!` does nothing when `S ≤ M`, and when
`S > M` (with the limit not reached and enough gas) it grows the memory to
the smallest multiple of 32 at least `S` and charges exactly
`cost(words(new length)) - cost(words(M))` for the configured cost
function. -/
theorem resize_memory_growth_spec (i : Interp) (offset len : Nat) (cost : Nat → Nat)
    (hmono : Monotone cost)
    (hM : i.shared_memory.len % 32 = 0)
    (hsum : offset + len + 31 ≤ USIZE_MAX)
    (hhw : i.gas.memory = cost (i.shared_memory.len / 32))
    (hlim : i.shared_memory.limit_reached (offset + len) = false)
    (hgas : cost (next_multiple_of_32 (offset + len) / 32) - i.gas.memory ≤
      i.gas.remaining) :
    (offset + len ≤ i.shared_memory.len →
      resize_memory offset len cost i = (i, true)) ∧
    (i.shared_memory.len < offset + len →
      (resize_memory offset len cost i).2 = true ∧
      (resize_memory offset len cost i).1.instruction_result = i.instruction_result ∧
      (resize_memory offset len cost i).1.shared_memory.len % 32 = 0 ∧
      offset + len ≤ (resize_memory offset len cost i).1.shared_memory.len ∧
      (∀ t, t % 32 = 0 → offset + len ≤ t →
        (resize_memory offset len cost i).1.shared_memory.len ≤ t) ∧
      (resize_memory offset len cost i).1.gas.remaining ≤ i.gas.remaining ∧
      i.gas.remaining - (resize_memory offset len cost i).1.gas.remaining =
        cost ((resize_memory offset len cost i).1.shared_memory.len / 32) -
          cost (i.shared_memory.len / 32)) := by
  have hminle : offset + len ≤ USIZE_MAX := by omega
  have hmin : min (offset + len) USIZE_MAX = offset + len := Nat.min_eq_left hminle
  constructor
  · intro h
    apply resize_memory_noop
    rw [hmin]
    omega
  · intro h
    have hgrow : i.shared_memory.len < min (offset + len) USIZE_MAX := by
      rw [hmin]
      exact h
    have hlimf : i.shared_memory.limit_reached (min (offset + len) USIZE_MAX) = false := by
      rw [hmin]
      exact hlim
    set R := next_multiple_of_32 (offset + len) with hR
    have hRmin : next_multiple_of_32 (min (offset + len) USIZE_MAX) = R := by
      rw [hmin]
    have hReq : R = (offset + len + 31) / 32 * 32 := next_multiple_of_32_eq hsum
    have hRmod : R % 32 = 0 := by
      rw [hReq]
      exact Nat.mul_mod_left _ _
    have hRge : offset + len ≤ R := le_next_multiple_of_32 hminle
    have hRlt : i.shared_memory.len < R := lt_of_lt_of_le h hRge
    have hcostle : cost (i.shared_memory.len / 32) ≤ cost (R / 32) :=
      hmono (Nat.div_le_div_right (le_of_lt hRlt))
    have hok : (i.gas.record_memory
        (cost (next_multiple_of_32 (min (offset + len) USIZE_MAX) / 32))).2 = true := by
      rw [hRmin]
      unfold Gas.record_memory
      by_cases hlt : i.gas.memory < cost (R / 32)
      · rw [if_pos hlt, if_pos hgas]
      · rw [if_neg hlt]
    have hgval : (i.gas.record_memory (cost (R / 32))).1.remaining =
        i.gas.remaining - (cost (R / 32) - cost (i.shared_memory.len / 32)) := by
      unfold Gas.record_memory
      by_cases hlt : i.gas.memory < cost (R / 32)
      · rw [if_pos hlt, if_pos hgas]
        rw [hhw]
      · rw [if_neg hlt]
        have hle2 : cost (R / 32) ≤ cost (i.shared_memory.len / 32) := by
          rw [← hhw]
          exact Nat.not_lt.mp hlt
        have h0 : cost (R / 32) - cost (i.shared_memory.len / 32) = 0 := by omega
        rw [h0]
        simp
    rw [resize_memory_success hgrow hlimf hok]
    have hlen : (({ i with
        gas := (i.gas.record_memory
          (cost (next_multiple_of_32 (min (offset + len) USIZE_MAX) / 32))).1,
        shared_memory :=
          i.shared_memory.resize (next_multiple_of_32 (min (offset + len) USIZE_MAX))
      } : Interp), true).1.shared_memory.len = R := by
      simp [SharedMemory.resize, hRmin]
    refine ⟨rfl, rfl, ?_, ?_, ?_, ?_, ?_⟩
    · rw [hlen]
      exact hRmod
    · rw [hlen]
      exact hRge
    · intro t ht hst
      rw [hlen, hReq]
      omega
    · show (i.gas.record_memory
        (cost (next_multiple_of_32 (min (offset + len) USIZE_MAX) / 32))).1.remaining ≤
          i.gas.remaining
      rw [hRmin, hgval]
      exact Nat.sub_le _ _
    · rw [hlen]
      show i.gas.remaining -
          (i.gas.record_memory
            (cost (next_multiple_of_32 (min (offset + len) USIZE_MAX) / 32))).1.remaining =
        cost (R / 32) - cost (i.shared_memory.len / 32)
      rw [hRmin, hgval]
      have hδ : cost (R / 32) - cost (i.shared_memory.len / 32) ≤ i.gas.remaining := by
        rw [hhw] at hgas
        exact hgas
      omega

/-- Witness for C1: empty memory, request of 33 bytes; memory becomes 64
bytes and exactly the incremental word cost is charged, for the identity
cost function. -/
theorem resize_memory_growth_witness :
    (resize_memory 0 33 (fun w => w) i0).2 = true ∧
    i0.gas.remaining - (resize_memory 0 33 (fun w => w) i0).1.gas.remaining =
      (fun w => w) ((resize_memory 0 33 (fun w => w) i0).1.shared_memory.len / 32) -
        (fun w => w) (i0.shared_memory.len / 32) := by
  have h := resize_memory_growth_spec i0 0 33 (fun w => w) monotone_id rfl
    (by decide) rfl rfl (by decide)
  exact ⟨(h.2 (by decide)).1, (h.2 (by decide)).2.2.2.2.2.2⟩

end Revm
